import Mathlib

/-!
Verification development for the portfolio valuation engine of the
market-dashboard repository (src/position/tradier.py).

Numbers are modelled as exact rationals (ℚ): every numeric formula in the
source (mid-price, PnL, Greek scaling, percentages, arc lengths) is plain
field arithmetic, so ℚ is the faithful idealization.  Fallible Python code
(operations that raise, e.g. `None + None` or a failed `strptime`) is
modelled with `Option`: `none` marks the raise.
-/

namespace Tradier

/-- Half-even rounding of a rational to an integer, the behaviour of
Python's builtin `round` on an exact value. -/
def roundHalfEven (q : ℚ) : ℤ :=
  let f := ⌊q⌋
  let r := q - (f : ℚ)
  if r < 1/2 then f
  else if 1/2 < r then f + 1
  else if f % 2 = 0 then f else f + 1

/-- Python `round(x, 2)`: round to 2 decimal digits, half to even. -/
def round2 (q : ℚ) : ℚ := (roundHalfEven (q * 100) : ℚ) / 100

/-- Python `int(x)` on a rational: truncation toward zero. -/
def pyTrunc (q : ℚ) : ℤ :=
  if 0 ≤ q then ⌊q⌋ else -⌊-q⌋

/-- Numeric value of a list of decimal digit characters. -/
def digitsVal (cs : List Char) : Nat :=
  cs.foldl (fun a c => a * 10 + (c.toNat - 48)) 0

/-- Gregorian leap-year test, as validated by `datetime.strptime`. -/
def isLeap (y : Nat) : Bool :=
  (y % 4 == 0 && y % 100 != 0) || (y % 400 == 0)

/-- Number of days in month `m` of year `y`. -/
def daysInMonth (y m : Nat) : Nat :=
  if m == 2 then (if isLeap y then 29 else 28)
  else if m == 4 || m == 6 || m == 9 || m == 11 then 30
  else 31

/-- `datetime.strptime(expiry, "%Y%m%d")`: an 8-digit string that denotes a
real calendar date; returns the (year, month, day) triple, `none` models the
`ValueError` raise. -/
def parseYYYYMMDD (s : String) : Option (Nat × Nat × Nat) :=
  let cs := s.data
  if cs.length = 8 ∧ cs.all Char.isDigit then
    let y := digitsVal (cs.take 4)
    let m := digitsVal ((cs.drop 4).take 2)
    let d := digitsVal (cs.drop 6)
    if 1 ≤ m ∧ m ≤ 12 ∧ 1 ≤ d ∧ d ≤ daysInMonth y m then
      some (y, m, d)
    else none
  else none

/-- Left-pad a string with `'0'` to width `w`. -/
def padZ (w : Nat) (s : String) : String :=
  String.mk (List.replicate (w - s.length) '0') ++ s

/-- Python `f"{n:0wd}"`: zero-pad an integer to total width `w`
(the sign, when present, counts toward the width). -/
def fmtZeroPad (w : Nat) (n : ℤ) : String :=
  if n < 0 then "-" ++ padZ (w - 1) (toString (-n).toNat)
  else padZ w (toString n.toNat)

/-- `f"{dt:%y%m%d}"`: two-digit year, month and day, each zero-padded. -/
def fmtYYMMDD (y m d : Nat) : String :=
  padZ 2 (toString (y % 100)) ++ padZ 2 (toString m) ++ padZ 2 (toString d)

/-- `to_occ(symbol, expiry, right, strike)` from src/position/tradier.py:
parse the expiry, emit `C` only when `right == "C"` (anything else gives
`P`), truncate `strike * 1000` to an int, zero-pad to 8 digits.
`none` models the `strptime` raise on a malformed expiry. -/
def to_occ (symbol expiry right : String) (strike : ℚ) : Option String :=
  match parseYYYYMMDD expiry with
  | none => none
  | some (y, m, d) =>
    let cp := if right = "C" then "C" else "P"
    let strike_int := pyTrunc (strike * 1000)
    some (symbol ++ fmtYYMMDD y m d ++ cp ++ fmtZeroPad 8 strike_int)

/-- The `greeks` sub-record of a Tradier quote; every field may be absent. -/
structure Greeks where
  delta : Option ℚ := none
  gamma : Option ℚ := none
  theta : Option ℚ := none
deriving DecidableEq

/-- A quote record as consumed by `update_market_price`; absent JSON keys
are `none` (`dict.get` returns `None`). -/
structure Quote where
  bid : Option ℚ := none
  ask : Option ℚ := none
  last : Option ℚ := none
  greeks : Option Greeks := none
deriving DecidableEq

/-- The raw position record from positions.yaml. -/
structure RawPosition where
  symbol : String
  secType : String
  qty : ℚ
  cost : ℚ
  right : Option String := none
  strike : Option ℚ := none
  expiry : Option String := none
deriving DecidableEq

/-- The `Position` object: identity fields plus derived valuation fields.
`price`/`upnl` start as `None`; the Greek exposures start at `0.0`. -/
structure Position where
  symbol : String
  secType : String
  qty : ℚ
  cost : ℚ
  right : Option String
  strike : Option ℚ
  expiry : Option String
  price : Option ℚ
  upnl : Option ℚ
  delta : ℚ
  gamma : ℚ
  theta : ℚ
deriving DecidableEq

/-- `Position.__init__`. -/
def Position.init (p : RawPosition) : Position :=
  { symbol := p.symbol, secType := p.secType, qty := p.qty, cost := p.cost
    right := p.right, strike := p.strike, expiry := p.expiry
    price := none, upnl := none, delta := 0, gamma := 0, theta := 0 }

/-- `Position.is_option`: `secType == "OPT"`. -/
def Position.is_option (p : Position) : Bool := p.secType == "OPT"

/-- `Position.occ_symbol`: `None` for non-options; for options, builds the
OCC key (a missing expiry/strike models the `TypeError` Python would raise
inside `to_occ`). -/
def Position.occ_symbol (p : Position) : Option String :=
  if p.is_option then
    match p.expiry, p.strike with
    | some e, some s => to_occ p.symbol e (p.right.getD "") s
    | _, _ => none
  else none

/-- `Position._convert_greek`: `round(float(value or 0) * 100 * qty, 2)`. -/
def Position.convert_greek (p : Position) (value : Option ℚ) : ℚ :=
  round2 (value.getD 0 * 100 * p.qty)

/-- `Position.update_market_price(q)`.  The source computes
`(q.get("bid") + q.get("ask")) / 2` with no guard, so a quote missing
either side raises `TypeError`; that raise is the `none` branch. -/
def Position.update_market_price (p : Position) (q : Quote) : Option Position :=
  match q.bid, q.ask with
  | some bid, some ask =>
    let base_price := (bid + ask) / 2
    let price := base_price * (if p.is_option then 100 else 1)
    let p1 :=
      if p.is_option then
        let greeks := q.greeks.getD {}
        { p with delta := p.convert_greek greeks.delta
                 gamma := p.convert_greek greeks.gamma
                 theta := p.convert_greek greeks.theta }
      else p
    some { p1 with price := some price, upnl := some ((price - p.cost) * p.qty) }
  | _, _ => none

/-- `Position.market_value`: `(price or 0) * qty`. -/
def Position.market_value (p : Position) : ℚ := p.price.getD 0 * p.qty


/-! ## Claim theorems: per-position valuation and the OCC resolver -/

/-- Helper: `round2 0 = 0`. -/
theorem round2_zero : round2 0 = 0 := by norm_num [round2, roundHalfEven]

/-- C1: with a quote carrying bid and ask, the mark is `(bid + ask) / 2`; an
equity's market value is `mark * qty` and its PnL `(mark - cost) * qty`; an
option's mark is scaled by the contract size 100 first, so its market value
is `(mark * 100) * qty` and its PnL `(mark * 100 - cost) * qty`. -/
theorem c1_per_class_valuation (p : Position) (q : Quote) (bid ask : ℚ)
    (hb : q.bid = some bid) (ha : q.ask = some ask) :
    ∃ p2, p.update_market_price q = some p2 ∧
      (p.is_option = false →
        p2.price = some ((bid + ask) / 2) ∧
        p2.market_value = (bid + ask) / 2 * p.qty ∧
        p2.upnl = some (((bid + ask) / 2 - p.cost) * p.qty)) ∧
      (p.is_option = true →
        p2.price = some ((bid + ask) / 2 * 100) ∧
        p2.market_value = (bid + ask) / 2 * 100 * p.qty ∧
        p2.upnl = some (((bid + ask) / 2 * 100 - p.cost) * p.qty)) := by
  cases hopt : p.is_option <;>
    simp [Position.update_market_price, hb, ha, hopt, Position.market_value]

/-- C1 witness: a concrete equity position valued with bid 110 / ask 112. -/
theorem c1_witness :
    ∃ p2, Position.update_market_price
        (Position.init ⟨"AAPL", "STK", 10, 100, none, none, none⟩)
        { bid := some 110, ask := some 112 } = some p2 ∧
      ((Position.init ⟨"AAPL", "STK", 10, 100, none, none, none⟩).is_option = false →
        p2.price = some (((110 : ℚ) + 112) / 2) ∧
        p2.market_value =
          ((110 : ℚ) + 112) / 2 * (Position.init ⟨"AAPL", "STK", 10, 100, none, none, none⟩).qty ∧
        p2.upnl = some ((((110 : ℚ) + 112) / 2 -
            (Position.init ⟨"AAPL", "STK", 10, 100, none, none, none⟩).cost) *
          (Position.init ⟨"AAPL", "STK", 10, 100, none, none, none⟩).qty)) ∧
      ((Position.init ⟨"AAPL", "STK", 10, 100, none, none, none⟩).is_option = true →
        p2.price = some (((110 : ℚ) + 112) / 2 * 100) ∧
        p2.market_value =
          ((110 : ℚ) + 112) / 2 * 100 *
            (Position.init ⟨"AAPL", "STK", 10, 100, none, none, none⟩).qty ∧
        p2.upnl = some ((((110 : ℚ) + 112) / 2 * 100 -
            (Position.init ⟨"AAPL", "STK", 10, 100, none, none, none⟩).cost) *
          (Position.init ⟨"AAPL", "STK", 10, 100, none, none, none⟩).qty)) :=
  c1_per_class_valuation _ _ 110 112 rfl rfl

/-- C2 (code bug): a structurally valid position whose lookup key is absent
from the quote map is valued against the empty quote; the source then
evaluates `None + None` and raises `TypeError` (modelled as `none`), instead
of falling back to `last` or degrading the mark to 0 as specified. -/
theorem c2_missing_quote_raises :
    (Position.init ⟨"AAPL", "STK", 10, 100, none, none, none⟩).update_market_price {} = none ∧
    ({} : Quote) = { bid := none, ask := none, last := none, greeks := none } := by
  constructor <;> rfl

/-- C3 counterexample: at strike 150.0015 the resolver emits the truncated
strike field `00150001`, not the rounded `00150002` the claim requires. -/
theorem c3_counterexample :
    to_occ "AAPL" "20250117" "C" (300003/2000) = some "AAPL250117C00150001" ∧
    roundHalfEven ((300003/2000 : ℚ) * 1000) = 150002 ∧
    ("AAPL" ++ "250117" ++ "C" ++ fmtZeroPad 8 150002 : String) = "AAPL250117C00150002" ∧
    ("AAPL250117C00150001" : String) ≠ "AAPL250117C00150002" := by
  refine ⟨?_, ?_, by decide, by decide⟩
  · have hp : parseYYYYMMDD "20250117" = some (2025, 1, 17) := by decide
    have ht : pyTrunc ((300003/2000 : ℚ) * 1000) = 150001 := by norm_num [pyTrunc]
    simp only [to_occ, hp, ht]
    decide
  · have hf : ⌊((300003 : ℚ)/2000 * 1000)⌋ = 150001 := by norm_num
    simp only [roundHalfEven, hf]
    norm_num

/-- C3 (amended): for an option with parseable expiry, right `C` or `P`, and
positive strike, the resolver returns symbol ++ yymmdd ++ the right character
++ the 8-wide zero-padded decimal representation of `int(strike * 1000)`,
which truncates toward zero (equal to `floor` for positive strikes) rather
than rounding, and that field is exactly 8 characters long whenever
`strike * 1000 < 10^8`. -/
theorem c3_resolver_truncates (symbol expiry right : String) (strike : ℚ) (y m d : Nat)
    (hp : parseYYYYMMDD expiry = some (y, m, d))
    (hr : right = "C" ∨ right = "P") (hpos : 0 < strike)
    (hbound : strike * 1000 < 10 ^ 8) :
    to_occ symbol expiry right strike =
      some (symbol ++ fmtYYMMDD y m d ++ right ++ fmtZeroPad 8 ⌊strike * 1000⌋) ∧
    (fmtZeroPad 8 ⌊strike * 1000⌋).length = 8 := by
  have hnn : (0 : ℚ) ≤ strike * 1000 := by positivity
  have htr : pyTrunc (strike * 1000) = ⌊strike * 1000⌋ := by
    simp [pyTrunc, hnn]
  have hfl : (0 : ℤ) ≤ ⌊strike * 1000⌋ := Int.floor_nonneg.mpr hnn
  constructor
  · rcases hr with rfl | rfl
    · simp only [to_occ, hp, htr, if_true]
    · simp only [to_occ, hp, htr, if_neg (by decide : ¬ ("P" : String) = "C")]
  · have hlt : ⌊strike * 1000⌋.toNat < 10 ^ 8 := by
      have h1 : ⌊strike * 1000⌋ < (10 : ℤ) ^ 8 := by
        have := Int.floor_le (strike * 1000)
        have h2 : (⌊strike * 1000⌋ : ℚ) < 10 ^ 8 := lt_of_le_of_lt this (by norm_num; linarith)
        exact_mod_cast h2
      omega
    have hlen : (toString ⌊strike * 1000⌋.toNat).length ≤ 8 :=
      Nat.repr_length _ 8 (by norm_num) hlt
    simp only [fmtZeroPad, if_neg (by omega : ¬ ⌊strike * 1000⌋ < 0), padZ]
    rw [String.length_append]
    simp [Nat.sub_add_cancel hlen]

/-- C3 witness: the claim's round-trip instance
`resolve(AAPL, 20250117, C, 150.0) = AAPL250117C00150000`. -/
theorem c3_witness : to_occ "AAPL" "20250117" "C" 150 = some "AAPL250117C00150000" := by
  have h := c3_resolver_truncates "AAPL" "20250117" "C" 150 2025 1 17 (by decide)
    (Or.inl rfl) (by norm_num) (by norm_num)
  rw [h.1]
  have hf : ⌊(150 : ℚ) * 1000⌋ = 150000 := by norm_num
  rw [hf]
  decide

/-- C9: any `right` other than exactly `"C"` makes the resolver emit `P`;
the resolver never rejects a position over the right field. -/
theorem c9_unrecognized_right (symbol expiry right : String) (strike : ℚ) (y m d : Nat)
    (hp : parseYYYYMMDD expiry = some (y, m, d)) (hr : right ≠ "C") :
    to_occ symbol expiry right strike =
      some (symbol ++ fmtYYMMDD y m d ++ "P" ++ fmtZeroPad 8 (pyTrunc (strike * 1000))) := by
  simp only [to_occ, hp, if_neg hr]

/-- C9 witness: `right = "PUT"` resolves with a `P` character. -/
theorem c9_witness :
    to_occ "SPY" "20250117" "PUT" 150 =
      some ("SPY" ++ fmtYYMMDD 2025 1 17 ++ "P" ++ fmtZeroPad 8 (pyTrunc ((150 : ℚ) * 1000))) :=
  c9_unrecognized_right "SPY" "20250117" "PUT" 150 2025 1 17 (by decide) (by decide)

/-- C8: for an option valued with a quote, each stored Greek exposure equals
the raw per-share Greek scaled by `100 * qty` and rounded half-even to two
decimals; a Greek absent from the quote contributes 0. -/
theorem c8_greek_scaling (p p2 : Position) (q : Quote) (hopt : p.is_option = true)
    (h : p.update_market_price q = some p2) :
    (p2.delta = round2 ((q.greeks.getD {}).delta.getD 0 * 100 * p.qty) ∧
     p2.gamma = round2 ((q.greeks.getD {}).gamma.getD 0 * 100 * p.qty) ∧
     p2.theta = round2 ((q.greeks.getD {}).theta.getD 0 * 100 * p.qty)) ∧
    ((q.greeks.getD {}).delta = none → p2.delta = 0) ∧
    ((q.greeks.getD {}).gamma = none → p2.gamma = 0) ∧
    ((q.greeks.getD {}).theta = none → p2.theta = 0) := by
  match hb : q.bid, ha : q.ask with
  | none, _ => simp [Position.update_market_price, hb] at h
  | some bid, none => simp [Position.update_market_price, hb, ha] at h
  | some bid, some ask =>
    simp only [Position.update_market_price, hb, ha, hopt, if_pos rfl] at h
    obtain rfl : _ = p2 := Option.some.inj h
    refine ⟨⟨rfl, rfl, rfl⟩, ?_, ?_, ?_⟩ <;>
      intro hn <;> simp [Position.convert_greek, hn, round2_zero]

/-- A concrete option position for the C8 witness. -/
def posC8 : Position :=
  Position.init ⟨"AAPL", "OPT", 2, 5, some "C", some 150, some "20250117"⟩

/-- A concrete option quote for the C8 witness (no gamma in the quote). -/
def quoteC8 : Quote :=
  { bid := some 1, ask := some 2,
    greeks := some { delta := some (1/2), gamma := none, theta := some (3/100) } }

/-- C8 witness: the Greek-scaling law evaluated on a concrete option
position and quote. -/
theorem c8_witness :
    ∃ p2, Position.update_market_price posC8 quoteC8 = some p2 ∧
      ((p2.delta = round2 ((quoteC8.greeks.getD {}).delta.getD 0 * 100 * posC8.qty) ∧
        p2.gamma = round2 ((quoteC8.greeks.getD {}).gamma.getD 0 * 100 * posC8.qty) ∧
        p2.theta = round2 ((quoteC8.greeks.getD {}).theta.getD 0 * 100 * posC8.qty)) ∧
       ((quoteC8.greeks.getD {}).delta = none → p2.delta = 0) ∧
       ((quoteC8.greeks.getD {}).gamma = none → p2.gamma = 0) ∧
       ((quoteC8.greeks.getD {}).theta = none → p2.theta = 0)) := by
  obtain ⟨p2, hp2⟩ : ∃ p2, Position.update_market_price posC8 quoteC8 = some p2 := by
    simp [Position.update_market_price, posC8, quoteC8]
  exact ⟨p2, hp2, c8_greek_scaling posC8 p2 quoteC8 rfl hp2⟩


/-! ## The aggregator, the chart builder and the display sort -/

/-- One renderable ring segment of the allocation chart. -/
structure ChartSegment where
  name : String
  pct : ℚ
  color : String
  arc : ℚ
  offset : ℚ
  value : ℚ
deriving DecidableEq

/-- One entry of `segments_data` in the source: the per-category inputs of
the chart loop. -/
structure SegmentData where
  name : String
  pct : ℚ
  color : String
  value : ℚ
deriving DecidableEq

/-- The chart-building loop of `get_portfolio_data` (lines 154-181): built
only when `net_liquidation > 0`; the three categories in fixed order; a
category is appended only when its percentage is strictly positive, and the
running `offset` accumulates the arcs of the appended segments.  `piq` stands
for the real constant `math.pi`; every formula is linear in it. -/
def chartSegmentsOf (piq cash stock opt nl : ℚ) : List ChartSegment :=
  if nl > 0 then
    let circumference := 2 * piq * 80
    let segments_data : List SegmentData :=
      [⟨"cash", cash / nl * 100, "#d4d4d4", cash⟩,
       ⟨"stock", stock / nl * 100, "#a3a3a3", stock⟩,
       ⟨"option", opt / nl * 100, "#737373", opt⟩]
    (segments_data.foldl (fun acc seg =>
      if seg.pct > 0 then
        (acc.1 ++ [⟨seg.name, seg.pct, seg.color, seg.pct / 100 * circumference, acc.2, seg.value⟩],
         acc.2 + seg.pct / 100 * circumference)
      else acc) ([], 0)).1
  else []

/-- The Python sort key of line 184: `(p.is_option, p.expiry or "")`,
compared as Python compares tuples (False before True, then string order). -/
def posLE (p q : Position) : Prop :=
  p.is_option = false ∧ q.is_option = true ∨
  p.is_option = q.is_option ∧ p.expiry.getD "" ≤ q.expiry.getD ""

instance : DecidableRel posLE := fun p q => by unfold posLE; infer_instance

instance : IsTotal Position posLE := by
  constructor
  intro p q
  unfold posLE
  rcases le_total (p.expiry.getD "") (q.expiry.getD "") with hle | hle <;>
    cases hp : p.is_option <;> cases hq : q.is_option <;>
      simp [hp, hq, hle]

instance : IsTrans Position posLE := by
  constructor
  intro a b c hab hbc
  unfold posLE at *
  rcases hab with ⟨ha, hb⟩ | ⟨hab, hle1⟩ <;> rcases hbc with ⟨hb2, hc⟩ | ⟨hbc, hle2⟩
  · exact absurd hb2 (by simp [hb])
  · exact Or.inl ⟨ha, hbc ▸ hb⟩
  · exact Or.inl ⟨hab ▸ hb2, hc⟩
  · exact Or.inr ⟨hab.trans hbc, hle1.trans hle2⟩

/-- `sorted(pos_objs, key=lambda p: (p.is_option, p.expiry or ""))`. -/
def sortPositions (l : List Position) : List Position := l.insertionSort posLE

/-- The lookup key sent to the quote provider for a position: the plain
symbol for non-options, the OCC symbol for options (whose construction can
raise, hence `Option`). -/
def lookupKeyOf (p : Position) : Option String :=
  if p.is_option then p.occ_symbol else some p.symbol

/-- The `for p in pos_objs: p.update_market_price(quotes.get(key, {}))`
loop: each position is valued against its quote (an absent key yields the
empty quote); the first raise aborts the run. -/
def valueAll (quotes : String → Option Quote) : List Position → Option (List Position)
  | [] => some []
  | p :: ps =>
    match lookupKeyOf p with
    | none => none
    | some key =>
      match p.update_market_price ((quotes key).getD {}) with
      | none => none
      | some p2 =>
        match valueAll quotes ps with
        | none => none
        | some rest => some (p2 :: rest)

/-- The consolidated view returned by `get_portfolio_data`. -/
structure PortfolioData where
  cash : ℚ
  net_liquidation : ℚ
  total_stock_mv : ℚ
  total_option_mv : ℚ
  total_upnl : ℚ
  total_theta : ℚ
  utilization : ℚ
  positions : List Position
  chart_segments : List ChartSegment
  circumference : ℚ

/-- `get_portfolio_data` (lines 124-218), as a function of the loaded
snapshot (`cash`, raw positions), the quote map, and the value of
`math.pi`; `none` models a raise during valuation. -/
def get_portfolio_data (piq cash : ℚ) (raw : List RawPosition)
    (quotes : String → Option Quote) : Option PortfolioData :=
  let pos0 := raw.map Position.init
  match valueAll quotes pos0 with
  | none => none
  | some updated =>
    let total_stock_mv := ((updated.filter fun p => !p.is_option).map Position.market_value).sum
    let total_option_mv := ((updated.filter fun p => p.is_option).map Position.market_value).sum
    let total_upnl := (updated.map fun p => p.upnl.getD 0).sum
    let total_theta := ((updated.filter fun p => p.is_option).map Position.theta).sum
    let net_liquidation := cash + total_stock_mv + total_option_mv
    some
      { cash := cash
        net_liquidation := net_liquidation
        total_stock_mv := total_stock_mv
        total_option_mv := total_option_mv
        total_upnl := total_upnl
        total_theta := total_theta
        utilization :=
          if net_liquidation ≠ 0 then (net_liquidation - cash) / net_liquidation else 0
        positions := sortPositions updated
        chart_segments := chartSegmentsOf piq cash total_stock_mv total_option_mv net_liquidation
        circumference := if net_liquidation > 0 then 2 * piq * 80 else 0 }


/-! ## Claim theorems: aggregation, chart and sort -/
/-- Helper: the empty string is minimal in the lexicographic string order. -/
lemma empty_string_le (s : String) : "" ≤ s := by
  rw [String.le_iff_toList_le]
  exact List.nil_le

/-- C6: the display sort is a permutation of the valued positions in which
every stock precedes every option; options are in ascending order of their
expiry string (`expiry or ""`), and an option with a real expiry is never
followed by one whose expiry is missing or empty (missing sorts first). -/
theorem c6_display_sort (l : List Position) :
    (sortPositions l).Perm l ∧
    (sortPositions l).Pairwise fun p q =>
      (q.is_option = false → p.is_option = false) ∧
      (p.is_option = true → q.is_option = true →
        p.expiry.getD "" ≤ q.expiry.getD "" ∧
        (p.expiry.getD "" ≠ "" → q.expiry.getD "" ≠ "")) := by
  refine ⟨List.perm_insertionSort _ _, ?_⟩
  have hs : List.Pairwise posLE (sortPositions l) :=
    List.sorted_insertionSort posLE l
  refine hs.imp ?_
  intro p q hpq
  rcases hpq with ⟨hp, hq⟩ | ⟨heq, hle⟩
  · exact ⟨fun _ => hp, fun h1 _ => absurd h1 (by simp [hp])⟩
  · refine ⟨fun h => heq.trans h, fun _ _ => ⟨hle, ?_⟩⟩
    intro hne hqe
    rw [hqe] at hle
    exact hne (le_antisymm hle (empty_string_le _))

/-- Helper: summing a mapped value over the non-options and over the options
partitions the sum over the whole list. -/
lemma sum_map_filter_split (f : Position → ℚ) (pr : Position → Bool) (l : List Position) :
    ((l.filter fun a => !pr a).map f).sum + ((l.filter pr).map f).sum = (l.map f).sum := by
  induction l with
  | nil => simp
  | cons a t ih =>
    cases h : pr a <;> simp [h, ← ih] <;> ring

/-- C4: on every successful run, `net_liquidation` equals `cash` plus the sum
of `market_value` over all output positions; with no positions it equals
`cash`. -/
theorem c4_net_liquidation_total (piq cash : ℚ) (raw : List RawPosition)
    (quotes : String → Option Quote) (out : PortfolioData)
    (h : get_portfolio_data piq cash raw quotes = some out) :
    out.net_liquidation = out.cash + (out.positions.map Position.market_value).sum ∧
    (raw = [] → out.net_liquidation = out.cash) := by
  unfold get_portfolio_data at h
  cases hv : valueAll quotes (raw.map Position.init) with
  | none => simp only [hv] at h; exact absurd h (by simp)
  | some updated =>
    simp only [hv] at h
    obtain rfl : _ = out := Option.some.inj h
    have hsum : ((sortPositions updated).map Position.market_value).sum
        = (updated.map Position.market_value).sum :=
      ((List.perm_insertionSort posLE updated).map Position.market_value).sum_eq
    constructor
    · show cash + ((updated.filter fun p => !p.is_option).map Position.market_value).sum
          + ((updated.filter fun p => p.is_option).map Position.market_value).sum
        = cash + ((sortPositions updated).map Position.market_value).sum
      rw [show ((sortPositions updated).map Position.market_value).sum
          = (updated.map Position.market_value).sum from hsum]
      rw [← sum_map_filter_split Position.market_value (fun p => p.is_option) updated]
      ring
    · intro hraw
      subst hraw
      simp [valueAll] at hv
      subst hv
      show cash + (([] : List Position).map Position.market_value).sum
          + (([] : List Position).map Position.market_value).sum = cash
      simp

/-- Helper: valuation never changes a position's instrument class. -/
lemma update_preserves_is_option (p p2 : Position) (q : Quote)
    (h : p.update_market_price q = some p2) : p2.is_option = p.is_option := by
  cases hb : q.bid <;> cases ha : q.ask <;>
    simp [Position.update_market_price, hb, ha] at h
  cases hopt : p.is_option <;> simp [hopt] at h <;>
    simp [← h, Position.is_option] <;>
    simpa [Position.is_option] using hopt

/-- Helper: the non-option branch of valuation leaves the Greek exposures
untouched. -/
lemma update_nonoption_keeps_greeks (p p2 : Position) (q : Quote)
    (hopt : p.is_option = false) (h : p.update_market_price q = some p2) :
    p2.delta = p.delta ∧ p2.gamma = p.gamma ∧ p2.theta = p.theta := by
  cases hb : q.bid <;> cases ha : q.ask <;>
    simp [Position.update_market_price, hb, ha] at h
  simp [hopt] at h
  simp [← h]

/-- Helper: every position in the output of the valuation loop comes from a
position of the input list valued against its looked-up quote. -/
lemma valueAll_mem (quotes : String → Option Quote) :
    ∀ (l out : List Position), valueAll quotes l = some out →
      ∀ p2 ∈ out, ∃ p ∈ l, ∃ key, lookupKeyOf p = some key ∧
        p.update_market_price ((quotes key).getD {}) = some p2 := by
  intro l
  induction l with
  | nil =>
    intro out h p2 hp2
    simp [valueAll] at h
    subst h
    simp at hp2
  | cons a t ih =>
    intro out h p2 hp2
    cases hk : lookupKeyOf a with
    | none => simp [valueAll, hk] at h
    | some key =>
      cases hu : a.update_market_price ((quotes key).getD {}) with
      | none => simp [valueAll, hk, hu] at h
      | some a2 =>
        cases hrest : valueAll quotes t with
        | none => simp [valueAll, hk, hu, hrest] at h
        | some rest =>
          simp [valueAll, hk, hu, hrest] at h
          subst h
          rcases List.mem_cons.mp hp2 with rfl | hmem
          · exact ⟨a, List.mem_cons_self a t, key, hk, hu⟩
          · obtain ⟨p, hpl, k, hkk, huu⟩ := ih rest hrest p2 hmem
            exact ⟨p, List.mem_cons_of_mem a hpl, k, hkk, huu⟩

/-- C10: after every successful run, each non-option position in the output
has delta, gamma and theta exactly 0 (they are initialized to zero and
written only on the option branch), and `total_theta` is the sum of theta
over the option positions alone. -/
theorem c10_equity_zero_greeks (piq cash : ℚ) (raw : List RawPosition)
    (quotes : String → Option Quote) (out : PortfolioData)
    (h : get_portfolio_data piq cash raw quotes = some out) :
    (∀ p ∈ out.positions, p.is_option = false →
      p.delta = 0 ∧ p.gamma = 0 ∧ p.theta = 0) ∧
    out.total_theta = ((out.positions.filter fun p => p.is_option).map Position.theta).sum := by
  unfold get_portfolio_data at h
  cases hv : valueAll quotes (raw.map Position.init) with
  | none => simp only [hv] at h; exact absurd h (by simp)
  | some updated =>
    simp only [hv] at h
    obtain rfl : _ = out := Option.some.inj h
    have hperm : (sortPositions updated).Perm updated := List.perm_insertionSort _ _
    constructor
    · intro p hp hopt
      have hpu : p ∈ updated := hperm.mem_iff.mp hp
      obtain ⟨p0, hp0, key, hkey, hupd⟩ := valueAll_mem quotes _ _ hv p hpu
      obtain ⟨r, _, rfl⟩ := List.mem_map.mp hp0
      have hopt0 : (Position.init r).is_option = false :=
        (update_preserves_is_option _ _ _ hupd).symm.trans hopt
      have hg := update_nonoption_keeps_greeks _ _ _ hopt0 hupd
      simpa [Position.init] using hg
    · show ((updated.filter fun p => p.is_option).map Position.theta).sum
        = (((sortPositions updated).filter fun p => p.is_option).map Position.theta).sum
      exact (((hperm.filter _).map Position.theta).sum_eq).symm

/-- C5 (amended): on every successful run the chart is empty whenever
`net_liquidation ≤ 0`; `utilization` is 0 exactly at `net_liquidation = 0`,
and for any nonzero `net_liquidation` (including negative ones) it equals
`(net_liquidation - cash) / net_liquidation`. -/
theorem c5_degenerate_totals (piq cash : ℚ) (raw : List RawPosition)
    (quotes : String → Option Quote) (out : PortfolioData)
    (h : get_portfolio_data piq cash raw quotes = some out) :
    (out.net_liquidation ≤ 0 → out.chart_segments = []) ∧
    (out.net_liquidation = 0 → out.utilization = 0) ∧
    (out.net_liquidation ≠ 0 →
      out.utilization = (out.net_liquidation - out.cash) / out.net_liquidation) := by
  unfold get_portfolio_data at h
  cases hv : valueAll quotes (raw.map Position.init) with
  | none => simp only [hv] at h; exact absurd h (by simp)
  | some updated =>
    simp only [hv] at h
    obtain rfl : _ = out := Option.some.inj h
    dsimp only
    refine ⟨?_, ?_, ?_⟩
    · intro hle
      rw [chartSegmentsOf, if_neg (not_lt.mpr hle)]
    · intro h0
      exact if_neg (fun hc => hc h0)
    · intro hne
      rw [if_pos hne]

/-- A quote map for the concrete runs: only "AAPL" is quoted. -/
def quotesC5 : String → Option Quote := fun s =>
  if s = "AAPL" then some { bid := some 99, ask := some 101 } else none

/-- Helper: the valuation loop on the single stock AAPL (qty 1, cost 50)
against a 99/101 quote marks it at 100 with PnL 50. -/
lemma valueAll_C5 :
    valueAll quotesC5 [Position.init ⟨"AAPL", "STK", 1, 50, none, none, none⟩]
      = some [{ symbol := "AAPL", secType := "STK", qty := 1, cost := 50,
                right := none, strike := none, expiry := none,
                price := some 100, upnl := some 50, delta := 0, gamma := 0, theta := 0 }] := by
  have hk : lookupKeyOf (Position.init ⟨"AAPL", "STK", 1, 50, none, none, none⟩)
      = some "AAPL" := by
    simp [lookupKeyOf, Position.init, Position.is_option]
  have hq : (quotesC5 "AAPL").getD {}
      = { bid := some 99, ask := some 101, last := none, greeks := none } := by
    simp [quotesC5]
  simp only [valueAll, hk, hq]
  simp [Position.update_market_price, Position.init, Position.is_option]
  norm_num

/-- C5 counterexample: with cash -200 and one stock worth 100 the run
succeeds with `net_liquidation = -100 ≤ 0`, yet `utilization = -1 ≠ 0`,
refuting the claim that utilization is 0 whenever `net_liquidation ≤ 0`. -/
theorem c5_counterexample :
    ∃ out, get_portfolio_data 3 (-200) [⟨"AAPL", "STK", 1, 50, none, none, none⟩] quotesC5
        = some out ∧
      out.net_liquidation ≤ 0 ∧ out.utilization ≠ 0 := by
  unfold get_portfolio_data
  simp only [List.map, valueAll_C5]
  refine ⟨_, rfl, ?_, ?_⟩
  · show (-200 : ℚ) + _ + _ ≤ 0
    simp [Position.market_value, Position.is_option]
    norm_num
  · simp [Position.market_value, Position.is_option]
    norm_num

/-- Offsets accumulate: each segment's offset is the running sum of the arcs
of the segments before it, starting from `acc`. -/
def offsetsFrom : ℚ → List ChartSegment → Prop
  | _, [] => True
  | acc, s :: rest => s.offset = acc ∧ offsetsFrom (acc + s.arc) rest

/-- C7: with positive net liquidation the chart lists its segments in the
fixed order cash, stock, option; every included segment has a strictly
positive percentage equal to `100 * value / net_liquidation` and arc length
`(percent / 100) * (2 * pi * 80)`; offsets accumulate the preceding arcs
starting at 0; and a category appears exactly when its percentage is
positive. -/
theorem c7_chart_segments (piq cash stock opt nl : ℚ) (h : 0 < nl) :
    ((chartSegmentsOf piq cash stock opt nl).map ChartSegment.name).Sublist
        ["cash", "stock", "option"] ∧
    (∀ s ∈ chartSegmentsOf piq cash stock opt nl,
        0 < s.pct ∧ s.pct = 100 * s.value / nl ∧
        s.arc = s.pct / 100 * (2 * piq * 80)) ∧
    offsetsFrom 0 (chartSegmentsOf piq cash stock opt nl) ∧
    (0 < cash / nl * 100 ↔
      "cash" ∈ (chartSegmentsOf piq cash stock opt nl).map ChartSegment.name) ∧
    (0 < stock / nl * 100 ↔
      "stock" ∈ (chartSegmentsOf piq cash stock opt nl).map ChartSegment.name) ∧
    (0 < opt / nl * 100 ↔
      "option" ∈ (chartSegmentsOf piq cash stock opt nl).map ChartSegment.name) := by
  by_cases h1 : cash / nl * 100 > 0 <;> by_cases h2 : stock / nl * 100 > 0 <;>
    by_cases h3 : opt / nl * 100 > 0 <;>
    simp [chartSegmentsOf, h, h1, h2, h3, offsetsFrom] <;>
    and_intros <;> ring

/-- Helper: the concrete single-stock run succeeds. -/
lemma run_C5_some :
    ∃ out, get_portfolio_data 3 1000 [⟨"AAPL", "STK", 1, 50, none, none, none⟩] quotesC5
      = some out := by
  unfold get_portfolio_data
  simp only [List.map, valueAll_C5]
  exact ⟨_, rfl⟩

/-- C4 witness: the invariant evaluated on the concrete single-stock run. -/
theorem c4_witness :
    ∃ out, get_portfolio_data 3 1000 [⟨"AAPL", "STK", 1, 50, none, none, none⟩] quotesC5
        = some out ∧
      (out.net_liquidation = out.cash + (out.positions.map Position.market_value).sum ∧
       (([⟨"AAPL", "STK", 1, 50, none, none, none⟩] : List RawPosition) = [] →
         out.net_liquidation = out.cash)) := by
  obtain ⟨out, hout⟩ := run_C5_some
  exact ⟨out, hout, c4_net_liquidation_total 3 1000 _ quotesC5 out hout⟩

/-- C5 witness: the amended utilization/chart law on the concrete run. -/
theorem c5_witness :
    ∃ out, get_portfolio_data 3 1000 [⟨"AAPL", "STK", 1, 50, none, none, none⟩] quotesC5
        = some out ∧
      ((out.net_liquidation ≤ 0 → out.chart_segments = []) ∧
       (out.net_liquidation = 0 → out.utilization = 0) ∧
       (out.net_liquidation ≠ 0 →
         out.utilization = (out.net_liquidation - out.cash) / out.net_liquidation)) := by
  obtain ⟨out, hout⟩ := run_C5_some
  exact ⟨out, hout, c5_degenerate_totals 3 1000 _ quotesC5 out hout⟩

/-- C10 witness: zero equity Greeks on the concrete single-stock run. -/
theorem c10_witness :
    ∃ out, get_portfolio_data 3 1000 [⟨"AAPL", "STK", 1, 50, none, none, none⟩] quotesC5
        = some out ∧
      ((∀ p ∈ out.positions, p.is_option = false →
          p.delta = 0 ∧ p.gamma = 0 ∧ p.theta = 0) ∧
       out.total_theta =
         ((out.positions.filter fun p => p.is_option).map Position.theta).sum) := by
  obtain ⟨out, hout⟩ := run_C5_some
  exact ⟨out, hout, c10_equity_zero_greeks 3 1000 _ quotesC5 out hout⟩

/-- C7 witness: the chart law at pi = 3, cash 1000, stock 1110, option 0,
net liquidation 2110. -/
theorem c7_witness :
    ((chartSegmentsOf 3 1000 1110 0 2110).map ChartSegment.name).Sublist
        ["cash", "stock", "option"] ∧
    (∀ s ∈ chartSegmentsOf 3 1000 1110 0 2110,
        0 < s.pct ∧ s.pct = 100 * s.value / 2110 ∧
        s.arc = s.pct / 100 * (2 * 3 * 80)) ∧
    offsetsFrom 0 (chartSegmentsOf 3 1000 1110 0 2110) ∧
    (0 < (1000 : ℚ) / 2110 * 100 ↔
      "cash" ∈ (chartSegmentsOf 3 1000 1110 0 2110).map ChartSegment.name) ∧
    (0 < (1110 : ℚ) / 2110 * 100 ↔
      "stock" ∈ (chartSegmentsOf 3 1000 1110 0 2110).map ChartSegment.name) ∧
    (0 < (0 : ℚ) / 2110 * 100 ↔
      "option" ∈ (chartSegmentsOf 3 1000 1110 0 2110).map ChartSegment.name) :=
  c7_chart_segments 3 1000 1110 0 2110 (by norm_num)

end Tradier
